import Mathlib

/-!
Verification development for the xyOps Replicate media-generation plugin
(`src/index.js`, image-only variant, and the multi-tool variant in
`src/unnamed/part_000`).  The plugin's pure logic — parameter parsing and
clamping, input-object construction, the `files:` placeholder resolver,
the poll loop's progress/timeout logic, and output-file naming — is
shallowly embedded below; network and filesystem effects are abstracted
as function parameters (the injected-capability style).  JS numbers are
modelled as rationals, JS strings as Lean strings.
-/

namespace Replicate

/-- JSON-like values flowing through the plugin (the `input` object and
its sub-values).  JS `undefined` never appears inside a parsed JSON
value, so it is not represented. -/
inductive Json where
  | null
  | bool (b : Bool)
  | num (q : ℚ)
  | str (s : String)
  | arr (items : List Json)
  | obj (fields : List (String × Json))

/-- JS `String.prototype.trim()`: strip whitespace from both ends,
embedded at the character-list level. -/
def jsTrim (s : String) : String :=
  ⟨((s.data.dropWhile Char.isWhitespace).reverse.dropWhile Char.isWhitespace).reverse⟩

/-- JS `String.prototype.startsWith(p)`: the first `p.length` characters
of `s` equal `p`. -/
def strStartsWith (s p : String) : Bool :=
  s.data.take p.data.length == p.data

/-- JS `String.prototype.slice(n)` for a nonnegative `n`. -/
def strDrop (s : String) (n : ℕ) : String :=
  ⟨s.data.drop n⟩

/-- Embeds the wildcard test `/[*?\[]/.test(pattern)` from
`resolveFilesInArgs` (part_000 line 311). -/
def wantsArray (pattern : String) : Bool :=
  pattern.data.any fun c => c = '*' || c = '?' || c = '['

/-- Embeds the string branch of `resolveFilesInArgs` (part_000 lines
302-322).  `matcher` abstracts `matchInputFiles` (the glob match against
the job's staged input files, an async filesystem operation) and
`uploader` abstracts the cached `uploadFileToReplicate` call (the cache
makes the filename→URL mapping a function of the filename within one
run). -/
def resolveString (matcher : String → List String) (uploader : String → String)
    (s : String) : Json :=
  let trimmed := jsTrim s
  if strStartsWith trimmed "files:" then
    let pattern := jsTrim (strDrop trimmed 6)
    if pattern = "" then Json.arr []
    else
      let ms := matcher pattern
      if ms.isEmpty then Json.arr []
      else
        let urls := ms.map uploader
        if wantsArray pattern then Json.arr (urls.map Json.str)
        else
          match urls with
          | [u] => Json.str u
          | _ => Json.arr (urls.map Json.str)
  else Json.str s

mutual

/-- Embeds `resolveFilesInArgs` (part_000 lines 301-347): the recursive
walk over a JSON-like value replacing `files:` placeholder strings. -/
def resolveFilesInArgs (matcher : String → List String)
    (uploader : String → String) : Json → Json
  | Json.str s => resolveString matcher uploader s
  | Json.arr items => Json.arr (resolveArr matcher uploader items)
  | Json.obj fields => Json.obj (resolveObj matcher uploader fields)
  | Json.null => Json.null
  | Json.bool b => Json.bool b
  | Json.num q => Json.num q

/-- Embeds the array branch (part_000 lines 324-336): each element is
resolved; an element whose resolution is an array is spread
(`resolved.push(...next)`, skipped entirely when empty), any other
result is pushed as a single element. -/
def resolveArr (matcher : String → List String)
    (uploader : String → String) : List Json → List Json
  | [] => []
  | item :: rest =>
    match resolveFilesInArgs matcher uploader item with
    | Json.arr xs => xs ++ resolveArr matcher uploader rest
    | v => v :: resolveArr matcher uploader rest

/-- Embeds the object branch (part_000 lines 338-344): every field is
rebuilt in place with its value resolved. -/
def resolveObj (matcher : String → List String)
    (uploader : String → String) : List (String × Json) → List (String × Json)
  | [] => []
  | (k, v) :: rest =>
    (k, resolveFilesInArgs matcher uploader v) :: resolveObj matcher uploader rest

end

/-- How one resolved element contributes to the rebuilt array in the
array branch of `resolveFilesInArgs`: an array result is spread into the
parent, anything else is pushed as a single element. -/
def spliceElems : Json → List Json
  | Json.arr xs => xs
  | v => [v]

theorem resolveArr_eq_flatMap (m : String → List String) (u : String → String)
    (items : List Json) :
    resolveArr m u items = items.flatMap fun item => spliceElems (resolveFilesInArgs m u item) := by
  induction items with
  | nil => rfl
  | cons item rest ih =>
    rw [List.flatMap_cons, ← ih, resolveArr]
    cases resolveFilesInArgs m u item <;> rfl

theorem resolveObj_eq_map (m : String → List String) (u : String → String)
    (fields : List (String × Json)) :
    resolveObj m u fields = fields.map fun kv => (kv.1, resolveFilesInArgs m u kv.2) := by
  induction fields with
  | nil => rfl
  | cons kv rest ih => cases kv; rw [List.map_cons, ← ih, resolveObj]

end Replicate

namespace Replicate

/-- Claim C2 — For every `files:` placeholder: a wildcard pattern yields the
list of matched files' URLs (even with exactly one match); a non-wildcard
pattern matching exactly one file yields that single URL, not a
one-element list; a pattern matching zero files yields an empty list (the
resolver returns before attempting any upload, so no error can arise). -/
theorem resolveFiles_placeholder_shape (m : String → List String)
    (u : String → String) (s pattern : String)
    (hstart : strStartsWith (jsTrim s) "files:" = true)
    (hpat : jsTrim (strDrop (jsTrim s) 6) = pattern)
    (hne : pattern ≠ "") :
    (m pattern = [] → resolveFilesInArgs m u (Json.str s) = Json.arr [])
    ∧ (wantsArray pattern = true →
        resolveFilesInArgs m u (Json.str s)
          = Json.arr ((m pattern).map fun f => Json.str (u f)))
    ∧ (∀ f, wantsArray pattern = false → m pattern = [f] →
        resolveFilesInArgs m u (Json.str s) = Json.str (u f)) := by
  have hres : resolveFilesInArgs m u (Json.str s) = resolveString m u s := rfl
  refine ⟨fun hm => ?_, fun hw => ?_, fun f hw hm => ?_⟩
  · rw [hres]
    simp [resolveString, hstart, hpat, hne, hm]
  · rw [hres]
    rcases h : m pattern with _ | ⟨f, fs⟩
    · simp [resolveString, hstart, hpat, hne, h]
    · simp [resolveString, hstart, hpat, hne, hw, h]
  · rw [hres]
    simp [resolveString, hstart, hpat, hne, hw, hm]

/-- Closed witness for `resolveFiles_placeholder_shape`: the literal
pattern `a.png` with one matching file resolves to the single uploaded
URL, not a one-element list. -/
theorem resolveFiles_placeholder_shape_witness :
    resolveFilesInArgs (fun _ => ["a.png"]) (fun f => "https://u/" ++ f)
      (Json.str "files:a.png") = Json.str "https://u/a.png" :=
  (resolveFiles_placeholder_shape (fun _ => ["a.png"]) (fun f => "https://u/" ++ f)
      "files:a.png" "a.png" (by decide) (by decide) (by decide)).2.2
    "a.png" (by decide) rfl

/-- Claim C3, amended — The resolver rebuilds mappings structurally in
place (keys, order and arity preserved, each value replaced by its own
resolved value); `null`, booleans, numbers, and strings that are not
`files:` placeholders pass through unchanged; but a list is rebuilt by
*splicing*: an element whose resolved value is a list contributes its
elements (flattened, and dropped entirely when empty) rather than
remaining a nested list. -/
theorem resolveFiles_structural (m : String → List String) (u : String → String) :
    (∀ fields, resolveFilesInArgs m u (Json.obj fields)
        = Json.obj (fields.map fun kv => (kv.1, resolveFilesInArgs m u kv.2)))
    ∧ (resolveFilesInArgs m u Json.null = Json.null)
    ∧ (∀ b, resolveFilesInArgs m u (Json.bool b) = Json.bool b)
    ∧ (∀ q, resolveFilesInArgs m u (Json.num q) = Json.num q)
    ∧ (∀ s, strStartsWith (jsTrim s) "files:" = false →
        resolveFilesInArgs m u (Json.str s) = Json.str s)
    ∧ (∀ items, resolveFilesInArgs m u (Json.arr items)
        = Json.arr (items.flatMap fun item => spliceElems (resolveFilesInArgs m u item))) := by
  refine ⟨fun fields => ?_, rfl, fun b => rfl, fun q => rfl, fun s hs => ?_, fun items => ?_⟩
  · rw [resolveFilesInArgs, resolveObj_eq_map]
  · have hres : resolveFilesInArgs m u (Json.str s) = resolveString m u s := rfl
    rw [hres]
    simp [resolveString, hs]
  · rw [resolveFilesInArgs, resolveArr_eq_flatMap]

/-- Closed witness for `resolveFiles_structural`: a non-placeholder
string inside a mapping passes through unchanged. -/
theorem resolveFiles_structural_witness :
    resolveFilesInArgs (fun _ => []) (fun f => f)
      (Json.obj [("k", Json.str "hello")]) = Json.obj [("k", Json.str "hello")] := by
  rw [(resolveFiles_structural (fun _ => []) (fun f => f)).1 [("k", Json.str "hello")]]
  rw [List.map_cons]
  rw [(resolveFiles_structural (fun _ => []) (fun f => f)).2.2.2.2.1 "hello" (by decide)]
  rfl

/-- A raw job parameter value as seen by `parseNumber` (part_000 lines
50-54).  `numeric q` stands for any JS value whose `Number(...)`
conversion is finite and equals `q`; `nonNumeric` for one whose
conversion is `NaN` or `±Infinity`. -/
inductive JSParam where
  | missing
  | nullv
  | emptyStr
  | numeric (q : ℚ)
  | nonNumeric

/-- Embeds `parseNumber(value, fallback)` with a number fallback (part_000 lines
50-54): `undefined`, `null` and `""` take the fallback, a finite numeric
conversion is returned, anything non-finite takes the fallback. -/
def parseNumber : JSParam → ℚ → ℚ
  | JSParam.numeric q, _ => q
  | _, fallback => fallback

/-- Embeds `parseNumber(value, undefined)` as used by `buildInput`: `none`
models the `undefined` result, which then fails the `Number.isFinite`
guard. -/
def parseNumberOpt : JSParam → Option ℚ
  | JSParam.numeric q => some q
  | _ => none

/-- JS `Math.round`: round half toward positive infinity. -/
def jsRound (q : ℚ) : ℚ :=
  (⌊q + 1/2⌋ : ℤ)

/-- JS object property assignment `o[k] = v`: overwrite the existing
property in place, or append a new one. -/
def setKey (o : List (String × Json)) (k : String) (v : Json) :
    List (String × Json) :=
  if o.any fun kv => kv.1 = k then
    o.map fun kv => if kv.1 = k then (k, v) else kv
  else o ++ [(k, v)]

theorem lookup_map_replace (k : String) (v : Json) :
    ∀ o : List (String × Json), (o.any fun kv => kv.1 = k) = true →
    List.lookup k (o.map fun kv => if kv.1 = k then (k, v) else kv) = some v := by
  intro o
  induction o with
  | nil => intro h; simp at h
  | cons hd tl ih =>
    intro h
    obtain ⟨k1, v1⟩ := hd
    by_cases hk1 : k1 = k
    · subst hk1; simp
    · have htl : (tl.any fun kv => kv.1 = k) = true := by simpa [hk1] using h
      simpa [hk1, List.lookup_cons, beq_false_of_ne (Ne.symm hk1)] using ih htl

theorem lookup_append_new (k : String) (v : Json) :
    ∀ o : List (String × Json),
    List.lookup k (o ++ [(k, v)]) = (List.lookup k o).getD v := by
  intro o
  induction o with
  | nil => simp
  | cons hd tl ih =>
    obtain ⟨k1, v1⟩ := hd
    by_cases hk1 : k = k1
    · simp [List.lookup_cons, hk1]
    · simpa [List.lookup_cons, beq_false_of_ne hk1] using ih

theorem lookup_setKey_self (o : List (String × Json)) (k : String) (v : Json) :
    List.lookup k (setKey o k v) = some v := by
  unfold setKey
  by_cases h : (o.any fun kv => kv.1 = k) = true
  · rw [if_pos h]
    exact lookup_map_replace k v o h
  · rw [if_neg h, lookup_append_new]
    have : List.lookup k o = none := by
      rw [Bool.not_eq_true, List.any_eq_false] at h
      induction o with
      | nil => rfl
      | cons hd tl ih =>
        obtain ⟨k1, v1⟩ := hd
        have hk1 : ¬ k1 = k := by simpa using h (k1, v1) (List.mem_cons_self _ _)
        simpa [List.lookup_cons, beq_false_of_ne (Ne.symm hk1)] using
          ih fun kv hkv => h kv (List.mem_cons_of_mem _ hkv)
    rw [this]
    rfl

theorem lookup_setKey_other (o : List (String × Json)) (k k' : String) (v : Json)
    (h : k' ≠ k) : List.lookup k' (setKey o k v) = List.lookup k' o := by
  unfold setKey
  by_cases hany : (o.any fun kv => kv.1 = k) = true
  · rw [if_pos hany]
    clear hany
    induction o with
    | nil => rfl
    | cons hd tl ih =>
      obtain ⟨k1, v1⟩ := hd
      by_cases hk1 : k1 = k
      · subst hk1
        simpa [List.lookup_cons, beq_false_of_ne h] using ih
      · by_cases hk' : k' = k1
        · simp [List.lookup_cons, hk1, hk']
        · simpa [List.lookup_cons, hk1, beq_false_of_ne hk'] using ih
  · rw [if_neg hany]
    clear hany
    induction o with
    | nil => simp [List.lookup_cons, beq_false_of_ne h]
    | cons hd tl ih =>
      obtain ⟨k1, v1⟩ := hd
      by_cases hk' : k' = k1
      · simp [List.lookup_cons, hk']
      · simpa [List.lookup_cons, beq_false_of_ne hk'] using ih

/-- The typed parameters consulted by `buildInput` (part_000 lines
79-105), together with the already-cloned custom-JSON base object.
`args` is the result of `cloneArgs(params.args)` — in a pure model the
deep clone is the object itself; `prompt` is `some s` when
`params.prompt` is truthy with string conversion `s`. -/
structure BuildParams where
  args : List (String × Json)
  prompt : Option String
  width : JSParam
  height : JSParam
  num_outputs : JSParam
  seed : JSParam
  duration : JSParam

/-- Embeds `buildInput` (part_000 lines 79-105): start from the cloned
custom JSON, then assign `prompt` and the tool-specific typed fields on
top of it. -/
def buildInput (p : BuildParams) (tool : String) : List (String × Json) :=
  let input := p.args
  let input := match p.prompt with
    | some s => setKey input "prompt" (Json.str s)
    | none => input
  if tool = "image" then
    let input := match parseNumberOpt p.width with
      | some q => setKey input "width" (Json.num (jsRound q))
      | none => input
    let input := match parseNumberOpt p.height with
      | some q => setKey input "height" (Json.num (jsRound q))
      | none => input
    let input := match parseNumberOpt p.num_outputs with
      | some q => setKey input "num_outputs" (Json.num (jsRound q))
      | none => input
    match parseNumberOpt p.seed with
    | some q => setKey input "seed" (Json.num (jsRound q))
    | none => input
  else if tool = "video" ∨ tool = "audio" then
    let input := match parseNumberOpt p.duration with
      | some q => setKey input "duration" (Json.num q)
      | none => input
    match parseNumberOpt p.seed with
    | some q => setKey input "seed" (Json.num (jsRound q))
    | none => input
  else input

/-- Claim C4 — The custom JSON (deep-cloned) is the base object and the
explicit typed parameters are assigned on top of it, so whenever both
supply the same key the explicit parameter's value is the one found in
the final input object, whatever the custom JSON contains and in
whatever order; and with no explicit parameters supplied the input is
exactly the cloned custom JSON. -/
theorem buildInput_explicit_wins (p : BuildParams) :
    (∀ q, p.width = JSParam.numeric q →
      List.lookup "width" (buildInput p "image") = some (Json.num (jsRound q)))
    ∧ (∀ s tool, p.prompt = some s →
      List.lookup "prompt" (buildInput p tool) = some (Json.str s))
    ∧ (∀ q, p.duration = JSParam.numeric q →
      List.lookup "duration" (buildInput p "video") = some (Json.num q))
    ∧ (∀ tool, p.prompt = none → p.width = JSParam.missing →
      p.height = JSParam.missing → p.num_outputs = JSParam.missing →
      p.seed = JSParam.missing → p.duration = JSParam.missing →
      buildInput p tool = p.args) := by
  refine ⟨fun q hq => ?_, fun s tool hs => ?_, fun q hq => ?_,
    fun tool h1 h2 h3 h4 h5 h6 => ?_⟩
  · have hw : parseNumberOpt p.width = some q := by rw [hq]; rfl
    rcases hh : parseNumberOpt p.height with _ | qh <;>
      rcases hn : parseNumberOpt p.num_outputs with _ | qn <;>
      rcases hsd : parseNumberOpt p.seed with _ | qs <;>
      rcases hp : p.prompt with _ | ps <;>
      simp [buildInput, hw, hh, hn, hsd, hp,
        lookup_setKey_self, lookup_setKey_other]
  · by_cases hti : tool = "image"
    · rcases hw : parseNumberOpt p.width with _ | qw <;>
        rcases hh : parseNumberOpt p.height with _ | qh <;>
        rcases hn : parseNumberOpt p.num_outputs with _ | qn <;>
        rcases hsd : parseNumberOpt p.seed with _ | qs <;>
        simp [buildInput, hti, hs, hw, hh, hn, hsd,
          lookup_setKey_self, lookup_setKey_other]
    · by_cases htv : tool = "video" ∨ tool = "audio"
      · rcases hd : parseNumberOpt p.duration with _ | qd <;>
          rcases hsd : parseNumberOpt p.seed with _ | qs <;>
          simp [buildInput, hti, htv, hs, hd, hsd,
            lookup_setKey_self, lookup_setKey_other]
      · simp [buildInput, hti, htv, hs, lookup_setKey_self]
  · have hd : parseNumberOpt p.duration = some q := by rw [hq]; rfl
    rcases hsd : parseNumberOpt p.seed with _ | qs <;>
      rcases hp : p.prompt with _ | ps <;>
      simp [buildInput, hd, hsd, hp,
        lookup_setKey_self, lookup_setKey_other]
  · have hw : parseNumberOpt p.width = none := by rw [h2]; rfl
    have hh : parseNumberOpt p.height = none := by rw [h3]; rfl
    have hn : parseNumberOpt p.num_outputs = none := by rw [h4]; rfl
    have hsd : parseNumberOpt p.seed = none := by rw [h5]; rfl
    have hd : parseNumberOpt p.duration = none := by rw [h6]; rfl
    by_cases hti : tool = "image" <;> by_cases htv : tool = "video" ∨ tool = "audio" <;>
      simp [buildInput, hti, htv, h1, hw, hh, hn, hsd, hd]

/-- Closed witness for `buildInput_explicit_wins`: an explicit
`width = 512` overrides `width` from the custom JSON. -/
theorem buildInput_explicit_wins_witness :
    List.lookup "width"
      (buildInput
        { args := [("width", Json.num 64), ("x", Json.bool true)],
          prompt := some "a cat", width := JSParam.numeric 512,
          height := JSParam.missing, num_outputs := JSParam.missing,
          seed := JSParam.missing, duration := JSParam.missing } "image")
      = some (Json.num 512) := by
  have h := (buildInput_explicit_wins
    { args := [("width", Json.num 64), ("x", Json.bool true)],
      prompt := some "a cat", width := JSParam.numeric 512,
      height := JSParam.missing, num_outputs := JSParam.missing,
      seed := JSParam.missing, duration := JSParam.missing }).1 512 rfl
  rw [h]
  norm_num [jsRound]

/-- Counterexample to claim C3 — A nested list element of a list does *not*
remain a nested list: `[[null]]` resolves to `[null]`, the inner list
having been spliced into the parent. -/
theorem resolveFiles_nested_list_cex :
    resolveFilesInArgs (fun _ => []) (fun f => f) (Json.arr [Json.arr [Json.null]])
        = Json.arr [Json.null]
    ∧ resolveFilesInArgs (fun _ => []) (fun f => f) (Json.arr [Json.arr [Json.null]])
        ≠ Json.arr [Json.arr [Json.null]] := by
  constructor
  · rfl
  · intro h
    rw [show resolveFilesInArgs (fun _ => []) (fun f => f) (Json.arr [Json.arr [Json.null]])
          = Json.arr [Json.null] from rfl] at h
    simp at h

end Replicate


namespace Replicate

/-- Expected-duration heuristic of `waitForCompletion` (part_000 line
354): `(tool == "video") ? 120_000 : ((tool == "audio") ? 15_000 :
30_000)`, in milliseconds. -/
def estWaitTimeMs (tool : String) : ℚ :=
  if tool = "video" then 120000 else if tool = "audio" then 15000 else 30000

/-- The progress estimate of one poll iteration (part_000 line 377):
`Math.min(0.9, 0.1 + (elapsed / estWaitTimeMs) * 0.8)`. -/
def progressAt (est elapsed : ℚ) : ℚ :=
  min (9/10) (1/10 + elapsed / est * (8/10))

/-- The progress values emitted from inside the poll loop (part_000
lines 377-381), for the iterations that reach the progress code (status
non-terminal, timeout not exceeded): given the elapsed time at each such
iteration and the running `lastProgress`, a value is emitted exactly
when it has advanced at least `0.05` since the last emission. -/
def loopEmits (est : ℚ) : List ℚ → ℚ → List ℚ
  | [], _ => []
  | e :: rest, last =>
    let p := progressAt est e
    if 1/20 ≤ p - last then p :: loopEmits est rest p
    else loopEmits est rest last

/-- All progress values emitted across one successful run of `main`
(part_000 lines 466, 490, 504 and the loop): the fixed `0.05` before
file resolution, the fixed `0.1` after the create call, the loop
emissions (with `lastProgress` starting at `0`, part_000 line 352), and
the fixed `0.9` before downloads. -/
def runProgressEmits (est : ℚ) (es : List ℚ) : List ℚ :=
  1/20 :: 1/10 :: (loopEmits est es 0 ++ [9/10])

theorem progressAt_nonneg_bounds (est e : ℚ) (hest : 0 < est) (he : 0 ≤ e) :
    1/10 ≤ progressAt est e ∧ progressAt est e ≤ 9/10 := by
  constructor
  · rw [progressAt, le_min_iff]
    refine ⟨by norm_num, ?_⟩
    have : 0 ≤ e / est * (8/10) := by positivity
    linarith
  · exact min_le_left _ _

theorem loopEmits_chain (est : ℚ) (hest : 0 < est) :
    ∀ (es : List ℚ) (last : ℚ), (∀ e ∈ es, 0 ≤ e) →
    List.Chain' (fun a b => a + 1/20 ≤ b) (loopEmits est es last)
    ∧ ∀ p ∈ loopEmits est es last,
        last + 1/20 ≤ p ∧ 1/10 ≤ p ∧ p ≤ 9/10 := by
  intro es
  induction es with
  | nil => intro last h; exact ⟨List.chain'_nil, by intro p hp; cases hp⟩
  | cons e rest ih =>
    intro last h
    have he : 0 ≤ e := h e (List.mem_cons_self _ _)
    have hrest : ∀ x ∈ rest, 0 ≤ x := fun x hx => h x (List.mem_cons_of_mem _ hx)
    rw [loopEmits]
    by_cases hcond : 1/20 ≤ progressAt est e - last
    · rw [if_pos hcond]
      obtain ⟨hchain, hmem⟩ := ih (progressAt est e) hrest
      obtain ⟨hb1, hb2⟩ := progressAt_nonneg_bounds est e hest he
      refine ⟨List.chain'_cons'.mpr ⟨?_, hchain⟩, ?_⟩
      · intro y hy
        have := (hmem y (List.mem_of_mem_head? hy)).1
        linarith
      · intro p hp
        rcases List.mem_cons.mp hp with hp | hp
        · subst hp; exact ⟨by linarith, hb1, hb2⟩
        · obtain ⟨h1, h2, h3⟩ := hmem p hp
          exact ⟨by linarith [progressAt_nonneg_bounds est e hest he], h2, h3⟩
    · rw [if_neg hcond]
      exact ih last hrest

/-- Claim C5, amended — Across one run the emitted progress sequence is
non-decreasing, and inside the poll loop consecutive emissions are at
least 0.05 apart; but the separation does not hold across the fixed
emissions: the fixed `0.1` after the create call can be immediately
repeated by the first in-loop emission (`lastProgress` starts at 0, and
the estimate at elapsed 0 is exactly 0.1), and an in-loop emission of
the capped value `0.9` duplicates the fixed `0.9`. -/
theorem runProgressEmits_monotone (est : ℚ) (es : List ℚ)
    (hest : 0 < est) (hes : ∀ e ∈ es, 0 ≤ e) :
    List.Chain' (· ≤ ·) (runProgressEmits est es)
    ∧ List.Chain' (fun a b => a + 1/20 ≤ b) (loopEmits est es 0) := by
  obtain ⟨hchain, hmem⟩ := loopEmits_chain est hest es 0 hes
  refine ⟨?_, hchain⟩
  rw [runProgressEmits]
  have htail : List.Chain' (· ≤ ·) (loopEmits est es 0 ++ [9/10]) := by
    rw [List.chain'_append]
    refine ⟨hchain.imp fun a b hab => by linarith, List.chain'_singleton _, ?_⟩
    intro x hx y hy
    obtain ⟨hne, hxl⟩ := List.mem_getLast?_eq_getLast hx
    have hxmem : x ∈ loopEmits est es 0 := hxl ▸ List.getLast_mem hne
    have hy9 : (9:ℚ)/10 = y := by simpa using hy
    rw [← hy9]
    exact (hmem x hxmem).2.2
  have hhead : ∀ y ∈ (loopEmits est es 0 ++ [9/10]).head?, (1:ℚ)/10 ≤ y := by
    rcases hl : loopEmits est es 0 with _ | ⟨p, ps⟩
    · intro y hy
      simp only [List.nil_append, List.head?_cons, Option.mem_def,
        Option.some.injEq] at hy
      subst hy
      norm_num
    · intro y hy
      simp only [List.cons_append, List.head?_cons, Option.mem_def,
        Option.some.injEq] at hy
      subst hy
      exact (hmem p (by rw [hl]; exact List.mem_cons_self p ps)).2.1
  refine List.chain'_cons'.mpr ⟨?_, List.chain'_cons'.mpr ⟨hhead, htail⟩⟩
  intro y hy
  simp only [List.head?_cons, Option.mem_def, Option.some.injEq] at hy
  subst hy
  norm_num

/-- Closed witness for `runProgressEmits_monotone` at a concrete run. -/
theorem runProgressEmits_monotone_witness :
    List.Chain' (· ≤ ·) (runProgressEmits 30000 [1000, 6000]) :=
  (runProgressEmits_monotone 30000 [1000, 6000] (by norm_num)
    (by intro e he
        rcases List.mem_cons.mp he with rfl | he
        · norm_num
        · rcases List.mem_cons.mp he with rfl | he
          · norm_num
          · cases he)).1

/-- Counterexample to claim C5 — At a run whose first poll iteration happens
at elapsed time 0 (always the case up to clock granularity: the estimate
is computed before the first sleep), the emitted sequence is
`[0.05, 0.1, 0.1, 0.9]`: the two middle values are 0 < 0.05 apart, so it
is false that no two emitted progress values lie within 0.05 of each
other. -/
theorem runProgressEmits_separation_cex :
    runProgressEmits 30000 [0] = [1/20, 1/10, 1/10, 9/10]
    ∧ ¬ List.Pairwise (fun a b => 1/20 ≤ |a - b|) (runProgressEmits 30000 [0]) := by
  have h : runProgressEmits 30000 [0] = [1/20, 1/10, 1/10, 9/10] := by
    rw [runProgressEmits, loopEmits, loopEmits]
    norm_num [progressAt]
  refine ⟨h, ?_⟩
  rw [h]
  intro hp
  have := (List.pairwise_cons.mp (List.pairwise_cons.mp hp).2).1 (1/10)
    (List.mem_cons_self _ _)
  norm_num at this

end Replicate

namespace Replicate

/-- Claim C6, amended — The in-loop progress estimate is a non-decreasing
function of elapsed time bounded above by 0.9; it is *not* always
strictly below 0.9: it attains exactly 0.9 once the elapsed time reaches
the expected duration (the cap is `Math.min(0.9, ...)`, not an
asymptote). -/
theorem progressAt_monotone_capped (est e1 e2 : ℚ) (hest : 0 < est)
    (h12 : e1 ≤ e2) :
    progressAt est e1 ≤ progressAt est e2
    ∧ progressAt est e2 ≤ 9/10
    ∧ progressAt est est = 9/10 := by
  refine ⟨?_, min_le_left _ _, ?_⟩
  · apply min_le_min le_rfl
    have h : e1 / est ≤ e2 / est := (div_le_div_iff_of_pos_right hest).mpr h12
    nlinarith
  · rw [progressAt, div_self (ne_of_gt hest)]
    norm_num

/-- Closed witness for `progressAt_monotone_capped`: with the image
heuristic (30 s), the estimate at 15 s is below the estimate at 30 s,
which is exactly 0.9 — not strictly below it. -/
theorem progressAt_monotone_capped_witness :
    progressAt 30000 15000 ≤ progressAt 30000 30000
    ∧ progressAt 30000 30000 ≤ 9/10
    ∧ progressAt 30000 30000 = 9/10 :=
  progressAt_monotone_capped 30000 15000 30000 (by norm_num) (by norm_num)

/-- Counterexample to claim C6 — At elapsed time equal to the expected
duration the estimate is exactly 0.9 (and it is emitted when
`lastProgress` is still 0), contradicting "strictly less than 0.9 for
every elapsed time". -/
theorem progressAt_reaches_cap_cex :
    progressAt 30000 30000 = 9/10
    ∧ ¬ progressAt 30000 30000 < 9/10
    ∧ loopEmits 30000 [30000] 0 = [9/10] := by
  have h : progressAt 30000 30000 = 9/10 := by
    rw [progressAt]
    norm_num
  refine ⟨h, by rw [h]; exact lt_irrefl _, ?_⟩
  rw [loopEmits, loopEmits]
  norm_num [h]

/-- Counterexample to claim C7 — The expected-duration heuristic does *not*
make image the fastest media type: the audio heuristic (15 s) is
strictly smaller than the image heuristic (30 s), so
`estWaitTimeMs "image" < estWaitTimeMs "audio"` is false. -/
theorem estWaitTimeMs_image_not_fastest_cex :
    estWaitTimeMs "image" = 30000
    ∧ estWaitTimeMs "audio" = 15000
    ∧ ¬ estWaitTimeMs "image" < estWaitTimeMs "audio" := by
  have hi : estWaitTimeMs "image" = 30000 := by simp [estWaitTimeMs]
  have ha : estWaitTimeMs "audio" = 15000 := by simp [estWaitTimeMs]
  exact ⟨hi, ha, by rw [hi, ha]; norm_num⟩

/-- Claim C7, amended — The poll loop's expected-duration heuristic
differs by media type, but the order is audio fastest (15 s), then image
(30 s, also the default for unknown tools), then video slowest (120 s):
`audio < image < video`. -/
theorem estWaitTimeMs_order :
    estWaitTimeMs "audio" < estWaitTimeMs "image"
    ∧ estWaitTimeMs "image" < estWaitTimeMs "video"
    ∧ estWaitTimeMs "video" = 120000
    ∧ estWaitTimeMs "audio" = 15000
    ∧ estWaitTimeMs "image" = 30000 := by
  refine ⟨?_, ?_, ?_, ?_, ?_⟩ <;> simp [estWaitTimeMs] <;> norm_num

end Replicate

namespace Replicate

/-- Effective synchronous-wait seconds (part_000 line 452):
`Math.min(60, Math.max(1, parseNumber(params.wait_seconds, 5)))`. -/
def waitSecondsOf (v : JSParam) : ℚ :=
  min 60 (max 1 (parseNumber v 5))

/-- Effective poll interval in ms (part_000 line 453):
`Math.max(250, parseNumber(params.poll_interval_ms, 1000))`. -/
def pollIntervalOf (v : JSParam) : ℚ :=
  max 250 (parseNumber v 1000)

/-- Effective timeout in ms (part_000 line 454):
`Math.max(1000, parseNumber(params.timeout_ms, 300000))`. -/
def timeoutOf (v : JSParam) : ℚ :=
  max 1000 (parseNumber v 300000)

/-- Claim C10 — For every supplied parameter value (missing, null, empty,
non-numeric — all of which fall back to the defaults 5, 1000 and
300000 — or any finite number), the effective wait is clamped to
[1, 60] seconds, the effective poll interval is at least 250 ms, and the
effective timeout is at least 1000 ms; the defaults themselves are 5,
1000 and 300000. -/
theorem timing_params_clamped :
    (∀ v, 1 ≤ waitSecondsOf v ∧ waitSecondsOf v ≤ 60)
    ∧ (∀ v, 250 ≤ pollIntervalOf v)
    ∧ (∀ v, 1000 ≤ timeoutOf v)
    ∧ waitSecondsOf JSParam.missing = 5
    ∧ pollIntervalOf JSParam.missing = 1000
    ∧ timeoutOf JSParam.missing = 300000 := by
  refine ⟨fun v => ⟨?_, ?_⟩, fun v => ?_, fun v => ?_, ?_, ?_, ?_⟩
  · rw [waitSecondsOf, le_min_iff]
    exact ⟨by norm_num, le_max_left _ _⟩
  · exact min_le_left _ _
  · exact le_max_left _ _
  · exact le_max_left _ _
  · rw [waitSecondsOf, show parseNumber JSParam.missing 5 = (5:ℚ) from rfl]
    norm_num
  · rw [pollIntervalOf, show parseNumber JSParam.missing 1000 = (1000:ℚ) from rfl]
    norm_num
  · rw [timeoutOf, show parseNumber JSParam.missing 300000 = (300000:ℚ) from rfl]
    norm_num

end Replicate

namespace Replicate

/-- Outcome of `waitForCompletion` (part_000 lines 349-393): either the
prediction succeeded, or the run failed with the given error kind
(`fail(code, ...)` throws, terminating the loop). -/
inductive WaitOutcome where
  | success
  | failure (code : String)

/-- One observed prediction state in the poll loop: the `status` field
(`none` models a response with no recognizable status) and the
wall-clock time elapsed since the loop started when the iteration runs
(`Date.now() - started`, part_000 line 372). -/
abbrev PollObs := Option String × ℚ

/-- Embeds the body of the `while (true)` poll loop of
`waitForCompletion` (part_000 lines 356-393) over the sequence of
observed prediction states: the first observation is the prediction
returned by the create call, the rest are poll responses.  Returns the
outcome (`none` when the observation trace is exhausted while the loop
would still be polling) together with the number of poll requests
issued.  Per iteration the code checks, in order: missing status (fatal
protocol error), `succeeded` (return), `failed` / `canceled` (fail),
elapsed time beyond the timeout (fail with the `timeout` kind) — and
only after all of these does it sleep and issue the next poll. -/
def waitLoop (timeoutMs : ℚ) : PollObs → List PollObs → Option WaitOutcome × ℕ
  | (none, _), _ => (some (WaitOutcome.failure "replicate"), 0)
  | (some st, elapsed), rest =>
    if st = "succeeded" then (some WaitOutcome.success, 0)
    else if st = "failed" then (some (WaitOutcome.failure "replicate_failed"), 0)
    else if st = "canceled" then (some (WaitOutcome.failure "replicate_canceled"), 0)
    else if timeoutMs < elapsed then (some (WaitOutcome.failure "timeout"), 0)
    else
      match rest with
      | [] => (none, 0)
      | next :: more =>
        let r := waitLoop timeoutMs next more
        (r.1, r.2 + 1)

/-- Runs `waitForCompletion` over a whole observation trace (first element =
the created prediction). -/
def waitRun (timeoutMs : ℚ) : List PollObs → Option WaitOutcome × ℕ
  | [] => (none, 0)
  | first :: rest => waitLoop timeoutMs first rest

/-- An observation that keeps the loop polling: a recognizable status
that is neither `succeeded`, `failed` nor `canceled`, within the
timeout. -/
def keepsPolling (timeoutMs : ℚ) (o : PollObs) : Prop :=
  (∃ st, o.1 = some st ∧ st ≠ "succeeded" ∧ st ≠ "failed" ∧ st ≠ "canceled")
  ∧ o.2 ≤ timeoutMs

/-- Claim C8 — Whenever the fetched status is non-terminal and the elapsed
time exceeds the timeout, the run fails with the `timeout` error kind,
and the number of poll requests issued equals the number of earlier
(non-terminal, in-time) iterations: no poll is issued at or after the
iteration that detects the timeout. -/
theorem waitRun_timeout (timeoutMs : ℚ) (pre : List PollObs) (st : String)
    (e : ℚ) (post : List PollObs)
    (hpre : ∀ o ∈ pre, keepsPolling timeoutMs o)
    (hst : st ≠ "succeeded" ∧ st ≠ "failed" ∧ st ≠ "canceled")
    (he : timeoutMs < e) :
    waitRun timeoutMs (pre ++ (some st, e) :: post)
      = (some (WaitOutcome.failure "timeout"), pre.length) := by
  induction pre with
  | nil =>
    rw [List.nil_append, waitRun, waitLoop.eq_def]
    simp [hst.1, hst.2.1, hst.2.2, he]
  | cons o pre ih =>
    obtain ⟨⟨st0, hsome, hs1, hs2, hs3⟩, hin⟩ := hpre o (List.mem_cons_self _ _)
    obtain ⟨os, oe⟩ := o
    simp only at hsome
    subst hsome
    have hrest : waitRun timeoutMs (pre ++ (some st, e) :: post)
        = (some (WaitOutcome.failure "timeout"), pre.length) :=
      ih fun x hx => hpre x (List.mem_cons_of_mem _ hx)
    rw [List.cons_append, waitRun, waitLoop.eq_def]
    simp only [hs1, hs2, hs3, if_false, not_lt.mpr hin, if_false, if_neg,
      Bool.false_eq_true]
    rcases hsplit : pre ++ (some st, e) :: post with _ | ⟨next, more⟩
    · cases pre <;> simp at hsplit
    · rw [hsplit, waitRun] at hrest
      simp [hrest, List.length_cons]

/-- Closed witness for `waitRun_timeout`: one in-time `processing` poll,
then a `processing` observation past the 300 s timeout: the run fails
with kind `timeout` after exactly one poll request. -/
theorem waitRun_timeout_witness :
    waitRun 300000 [(some "processing", 1000), (some "processing", 301000)]
      = (some (WaitOutcome.failure "timeout"), 1) := by
  have h := waitRun_timeout 300000 [(some "processing", 1000)] "processing"
    301000 []
    (by
      intro o ho
      rcases List.mem_cons.mp ho with rfl | ho
      · exact ⟨⟨"processing", rfl, by decide, by decide, by decide⟩, by norm_num⟩
      · cases ho)
    ⟨by decide, by decide, by decide⟩ (by norm_num)
  simpa using h

end Replicate

namespace Replicate

/-- Decimal rendering of a natural number with explicit recursion fuel
(the fuel is always sufficient at `n + 1`); embeds the JS template
interpolation of a nonnegative integer (`${index + 1}`). -/
def natCharsAux : ℕ → ℕ → List Char
  | 0, _ => []
  | fuel + 1, n =>
    if n < 10 then [Nat.digitChar n]
    else natCharsAux fuel (n / 10) ++ [Nat.digitChar (n % 10)]

/-- The decimal digit characters of `n`. -/
def natChars (n : ℕ) : List Char :=
  natCharsAux (n + 1) n

/-- Reads a digit string back to its value; inverse of `natChars`. -/
def charsVal (cs : List Char) : ℕ :=
  cs.foldl (fun a c => a * 10 + (c.toNat - '0'.toNat)) 0

theorem natCharsAux_fuel : ∀ n fuel fuel', n < fuel → n < fuel' →
    natCharsAux fuel n = natCharsAux fuel' n := by
  intro n
  induction n using Nat.strong_induction_on with
  | _ n ih =>
    intro fuel fuel' hf hf'
    rcases fuel with _ | f
    · omega
    rcases fuel' with _ | f'
    · omega
    rw [natCharsAux, natCharsAux]
    by_cases h10 : n < 10
    · rw [if_pos h10, if_pos h10]
    · rw [if_neg h10, if_neg h10]
      have hdiv : n / 10 < n := Nat.div_lt_self (by omega) (by omega)
      rw [ih (n / 10) hdiv f f' (by omega) (by omega)]

theorem natChars_eq (n : ℕ) :
    natChars n = if n < 10 then [Nat.digitChar n]
      else natChars (n / 10) ++ [Nat.digitChar (n % 10)] := by
  rw [natChars, natCharsAux]
  by_cases h10 : n < 10
  · rw [if_pos h10, if_pos h10]
  · rw [if_neg h10, if_neg h10, natChars]
    have hdiv : n / 10 < n := Nat.div_lt_self (by omega) (by omega)
    rw [natCharsAux_fuel (n / 10) n (n / 10 + 1) (by omega) (by omega)]

theorem digitChar_val (d : ℕ) (h : d < 10) :
    (Nat.digitChar d).toNat - '0'.toNat = d := by
  interval_cases d <;> rfl

theorem digitChar_ne_dot (d : ℕ) (h : d < 10) : Nat.digitChar d ≠ '.' := by
  interval_cases d <;> decide

theorem charsVal_append_digit (cs : List Char) (c : Char) :
    charsVal (cs ++ [c]) = charsVal cs * 10 + (c.toNat - '0'.toNat) := by
  rw [charsVal, charsVal, List.foldl_append]
  rfl

theorem charsVal_natChars (n : ℕ) : charsVal (natChars n) = n := by
  induction n using Nat.strong_induction_on with
  | _ n ih =>
    rw [natChars_eq]
    by_cases h10 : n < 10
    · rw [if_pos h10]
      have hone : charsVal [Nat.digitChar n]
          = 0 * 10 + ((Nat.digitChar n).toNat - '0'.toNat) := rfl
      rw [hone, Nat.zero_mul, Nat.zero_add]
      exact digitChar_val n h10
    · rw [if_neg h10, charsVal_append_digit]
      have hdiv : n / 10 < n := Nat.div_lt_self (by omega) (by omega)
      rw [ih (n / 10) hdiv, digitChar_val (n % 10) (Nat.mod_lt _ (by omega))]
      omega

theorem natChars_inj {a b : ℕ} (h : natChars a = natChars b) : a = b := by
  have := charsVal_natChars a
  rw [h, charsVal_natChars] at this
  omega

theorem natChars_ne_dot (n : ℕ) : ∀ c ∈ natChars n, c ≠ '.' := by
  induction n using Nat.strong_induction_on with
  | _ n ih =>
    intro c hc
    rw [natChars_eq] at hc
    by_cases h10 : n < 10
    · rw [if_pos h10] at hc
      rcases List.mem_singleton.mp hc with rfl
      exact digitChar_ne_dot n h10
    · rw [if_neg h10] at hc
      have hdiv : n / 10 < n := Nat.div_lt_self (by omega) (by omega)
      rcases List.mem_append.mp hc with hc | hc
      · exact ih (n / 10) hdiv c hc
      · rcases List.mem_singleton.mp hc with rfl
        exact digitChar_ne_dot (n % 10) (Nat.mod_lt _ (by omega))

theorem split_at_dot : ∀ (a b e1 e2 : List Char),
    (∀ c ∈ a, c ≠ '.') → (∀ c ∈ b, c ≠ '.') →
    a ++ '.' :: e1 = b ++ '.' :: e2 → a = b ∧ e1 = e2 := by
  intro a
  induction a with
  | nil =>
    intro b e1 e2 _ hb h
    rcases b with _ | ⟨c, b'⟩
    · simpa using h
    · rw [List.nil_append, List.cons_append] at h
      have : '.' = c := (List.cons.injEq _ _ _ _).mp h |>.1
      exact absurd this.symm (hb c (List.mem_cons_self _ _))
  | cons c a' ih =>
    intro b e1 e2 ha hb h
    rcases b with _ | ⟨c', b'⟩
    · rw [List.cons_append, List.nil_append] at h
      have : c = '.' := (List.cons.injEq _ _ _ _).mp h |>.1
      exact absurd this (ha c (List.mem_cons_self _ _))
    · rw [List.cons_append, List.cons_append] at h
      obtain ⟨hc, hrest⟩ := (List.cons.injEq _ _ _ _).mp h
      obtain ⟨hab, he⟩ := ih b' e1 e2
        (fun x hx => ha x (List.mem_cons_of_mem _ hx))
        (fun x hx => hb x (List.mem_cons_of_mem _ hx)) hrest
      exact ⟨by rw [hc, hab], he⟩

/-- The decimal string of `n` (as JS template interpolation renders a
nonnegative integer). -/
def natStr (n : ℕ) : String :=
  ⟨natChars n⟩

/-- Embeds the output filename construction of `downloadFile` /
`downloadDataUrl` (part_000 lines 403 and 432):
`${filenamePrefix}-${index + 1}.${extension}`. -/
def outputFilename (base : String) (index : ℕ) (ext : String) : String :=
  base ++ "-" ++ natStr (index + 1) ++ "." ++ ext

/-- Embeds part_000 line 506: `replicate-${finalPrediction.id}`, the
prediction-ID-derived base shared by all files of one run. -/
def runFileBase (id : String) : String :=
  "replicate-" ++ id

/-- The filenames produced by the download loop of `main` (part_000
lines 507-511): the i-th collected output URL is downloaded to a file
named from the run base, the zero-based position i, and the extension
chosen for that download (from the response content type, URL suffix, or
data-URL media type — abstracted as `exts`). -/
def downloadRunFiles (base : String) (exts : ℕ → String) (n : ℕ) : List String :=
  (List.range n).map fun i => outputFilename base i (exts i)

theorem outputFilename_inj (base : String) (i j : ℕ) (e1 e2 : String)
    (heq : outputFilename base i e1 = outputFilename base j e2) :
    i = j ∧ e1 = e2 := by
  have hdata : base.data ++ '-' :: (natChars (i + 1) ++ '.' :: e1.data)
      = base.data ++ '-' :: (natChars (j + 1) ++ '.' :: e2.data) := by
    have h := congrArg String.data heq
    simpa [outputFilename, natStr, String.data_append, List.append_assoc,
      show ("-" : String).data = ['-'] from rfl,
      show ("." : String).data = ['.'] from rfl] using h
  have htail := ((List.cons.injEq _ _ _ _).mp (List.append_cancel_left hdata)).2
  obtain ⟨hnum, hext⟩ :=
    split_at_dot _ _ _ _ (natChars_ne_dot (i + 1)) (natChars_ne_dot (j + 1)) htail
  have hij : i + 1 = j + 1 := natChars_inj hnum
  exact ⟨by omega, String.ext hext⟩

/-- Claim C9 — For every successful run (prediction id `id`, extension
chosen per download by `exts`), the i-th downloaded file is named from
the prediction-ID-derived base and the zero-based position i of its URL
(rendered one-based in the name, `${index + 1}`): the list of filenames
has one entry per output URL, the i-th filename is that of the i-th URL,
and the filenames are pairwise distinct — the decimal index part of the
name is dot-free, so the first dot after the base separates it from the
extension unambiguously, whatever the extension strings are. -/
theorem downloadRun_filenames (id : String) (exts : ℕ → String) (n : ℕ) :
    (downloadRunFiles (runFileBase id) exts n).length = n
    ∧ (∀ i : ℕ, ∀ h : i < n,
        (downloadRunFiles (runFileBase id) exts n).get
            ⟨i, by simpa [downloadRunFiles] using h⟩
          = outputFilename (runFileBase id) i (exts i))
    ∧ List.Pairwise (· ≠ ·) (downloadRunFiles (runFileBase id) exts n) := by
  refine ⟨by simp [downloadRunFiles], fun i h => ?_, ?_⟩
  · simp [downloadRunFiles]
  · rw [downloadRunFiles]
    refine List.Pairwise.map _ ?_ (List.pairwise_lt_range n)
    intro a b hab heq
    have := (outputFilename_inj (runFileBase id) a b (exts a) (exts b) heq).1
    omega

/-- Closed witness for `downloadRun_filenames`: a run with two outputs
and `png` extensions yields two distinct filenames, and the first one is
`replicate-xyz-1.png`. -/
theorem downloadRun_filenames_witness :
    (downloadRunFiles (runFileBase "xyz") (fun _ => "png") 2).length = 2
    ∧ (downloadRunFiles (runFileBase "xyz") (fun _ => "png") 2).get
        ⟨0, by simp [downloadRunFiles]⟩
      = outputFilename (runFileBase "xyz") 0 "png"
    ∧ List.Pairwise (· ≠ ·) (downloadRunFiles (runFileBase "xyz") (fun _ => "png") 2) :=
  ⟨(downloadRun_filenames "xyz" (fun _ => "png") 2).1,
   (downloadRun_filenames "xyz" (fun _ => "png") 2).2.1 0 (by norm_num),
   (downloadRun_filenames "xyz" (fun _ => "png") 2).2.2⟩

end Replicate

namespace Replicate

/-- State of the part_000 reporter (lines 15-26): the idempotent exit
guard `didExit` plus the records actually written to stdout, each tagged
with whether it was a terminal (`exit = true`) record. -/
structure ReporterState where
  didExit : Bool
  out : List (String × Bool)

/-- Embeds part_000's `writeJson(payload, exit)` (lines 18-26): once
`didExit` is set nothing is ever written again; a terminal call sets
`didExit` before the process would exit. -/
def writeJson (st : ReporterState) (payload : String) (exit : Bool) :
    ReporterState :=
  if st.didExit then st
  else if exit then { didExit := true, out := st.out ++ [(payload, true)] }
  else { didExit := st.didExit, out := st.out ++ [(payload, false)] }

/-- Runs a sequence of emission calls through part_000's `writeJson`
starting from the fresh per-process state (`didExit = false`). -/
def runEmits (calls : List (String × Bool)) : ReporterState :=
  calls.foldl (fun st c => writeJson st c.1 c.2) ⟨false, []⟩

/-- Number of terminal records among the written records. -/
def countTerminal (out : List (String × Bool)) : ℕ :=
  (out.filter fun c => c.2).length

def runFrom (st : ReporterState) (calls : List (String × Bool)) : ReporterState :=
  calls.foldl (fun st c => writeJson st c.1 c.2) st

theorem runFrom_of_didExit : ∀ (calls : List (String × Bool)) (st : ReporterState),
    st.didExit = true → runFrom st calls = st := by
  intro calls
  induction calls with
  | nil => intro st _; rfl
  | cons c rest ih =>
    intro st hst
    rw [runFrom, List.foldl_cons]
    have hw : writeJson st c.1 c.2 = st := by rw [writeJson, if_pos hst]
    rw [hw]
    exact ih st hst

theorem runFrom_count : ∀ (calls : List (String × Bool)) (st : ReporterState),
    countTerminal (runFrom st calls).out
      = countTerminal st.out
        + (if st.didExit then 0 else if calls.any (fun c => c.2) then 1 else 0) := by
  intro calls
  induction calls with
  | nil => intro st; simp [runFrom]
  | cons c rest ih =>
    intro st
    rw [runFrom, List.foldl_cons, ← runFrom]
    by_cases hst : st.didExit = true
    · rw [writeJson, if_pos hst, ih st, if_pos hst, if_pos hst]
    · rw [Bool.not_eq_true] at hst
      by_cases hc : c.2 = true
      · have hw : writeJson st c.1 c.2
            = { didExit := true, out := st.out ++ [(c.1, true)] } := by
          rw [writeJson, hst, hc]
          simp
        rw [hw, ih]
        simp [countTerminal, hst, hc, List.filter_append]
      · rw [Bool.not_eq_true] at hc
        have hw : writeJson st c.1 c.2
            = { didExit := st.didExit, out := st.out ++ [(c.1, false)] } := by
          rw [writeJson, hst, hc]
          simp
        rw [hw, ih]
        simp [countTerminal, hst, hc, List.filter_append, List.any_cons]
        rw [hc, Bool.false_or]

/-- Claim C1, amended — In the multi-tool variant (part_000), whose
`writeJson` carries the `didExit` guard and whose `fail` throws after
emitting: at most one terminal record is ever written; if any terminal
emission is attempted, exactly one terminal record is written; and after
the first terminal call every subsequent call (progress or terminal)
writes nothing.  (The image-only variant `index.js` has no such guard —
see `reporter_unguarded_cex`.) -/
theorem reporter_single_terminal :
    (∀ calls : List (String × Bool), countTerminal (runEmits calls).out ≤ 1)
    ∧ (∀ calls : List (String × Bool), (calls.any fun c => c.2) = true →
        countTerminal (runEmits calls).out = 1)
    ∧ (∀ (calls1 : List (String × Bool)) (p : String) (calls2 : List (String × Bool)),
        (runEmits (calls1 ++ (p, true) :: calls2)).out
          = (runEmits (calls1 ++ [(p, true)])).out) := by
  have hcount : ∀ calls : List (String × Bool),
      countTerminal (runEmits calls).out
        = if calls.any (fun c => c.2) then 1 else 0 := by
    intro calls
    have h := runFrom_count calls ⟨false, []⟩
    simpa [runEmits, runFrom, countTerminal] using h
  refine ⟨fun calls => ?_, fun calls h => ?_, fun calls1 p calls2 => ?_⟩
  · rw [hcount]
    split <;> omega
  · rw [hcount, if_pos h]
  · have hsplit1 : runEmits (calls1 ++ (p, true) :: calls2)
        = runFrom (runFrom ⟨false, []⟩ (calls1 ++ [(p, true)])) calls2 := by
      rw [runEmits, runFrom, runFrom, ← List.foldl_append]
      simp
    have hexit : (runFrom ⟨false, []⟩ (calls1 ++ [(p, true)])).didExit = true := by
      rw [runFrom, List.foldl_append]
      simp only [List.foldl_cons, List.foldl_nil]
      set st := List.foldl (fun st c => writeJson st c.1 c.2) ⟨false, []⟩ calls1
      by_cases hst : st.didExit = true
      · rw [writeJson, if_pos hst]
        exact hst
      · rw [Bool.not_eq_true] at hst
        rw [writeJson, hst]
        simp
    rw [hsplit1, runFrom_of_didExit calls2 _ hexit]
    rfl

/-- Closed witness for `reporter_single_terminal`: a progress record, a
terminal record, then a late second error and another progress update —
exactly one terminal record is written. -/
theorem reporter_single_terminal_witness :
    countTerminal (runEmits
      [("progress", false), ("timeout", true),
       ("network", true), ("progress", false)]).out = 1 :=
  reporter_single_terminal.2.1
    [("progress", false), ("timeout", true), ("network", true), ("progress", false)]
    (by decide)

/-- Embeds `index.js`'s `writeJson` (lines 15-19): there is *no*
`didExit` guard, and on a terminal call `process.exit(0)` only runs in
the stream-write callback, i.e. after the current synchronous code has
finished — so every call, including calls made after a terminal record,
writes its line. -/
def writeJsonNoGuard (out : List (String × Bool)) (payload : String)
    (exit : Bool) : List (String × Bool) :=
  out ++ [(payload, exit)]

def runEmitsNoGuard (calls : List (String × Bool)) : List (String × Bool) :=
  calls.foldl (fun out c => writeJsonNoGuard out c.1 c.2) []

/-- The records emitted by one synchronous iteration of `index.js`'s
poll loop body (lines 147-174, up to the `await delay(...)`): `fail`
(lines 22-24) emits a terminal record and *returns normally* (it does
not throw), the `switch` arm then `break`s, and execution falls through
to the timeout check and the progress check of the same iteration. -/
def pollIterEmitsNoGuard (st : String) (elapsed timeoutMs lastProgress : ℚ) :
    List (String × Bool) :=
  if st = "succeeded" then []
  else
    (if st = "failed" then [("replicate_failed", true)]
     else if st = "canceled" then [("replicate_canceled", true)]
     else [])
    ++ (if timeoutMs < elapsed then [("timeout", true)] else [])
    ++ (let p := min (9/10) (1/10 + elapsed / 30000 * (8/10))
        if 1/20 ≤ p - lastProgress then [("progress", false)] else [])

/-- Counterexample to claim C1 — In `index.js`, an iteration that observes
status `failed` at an elapsed time already past the timeout writes *two*
terminal records (`replicate_failed`, then `timeout`) and then a
progress record, all after the first terminal record: the claim's
"exactly one terminal record, and nothing written after it" is false for
this variant. -/
theorem reporter_unguarded_cex :
    runEmitsNoGuard (pollIterEmitsNoGuard "failed" 301000 300000 0)
      = [("replicate_failed", true), ("timeout", true), ("progress", false)]
    ∧ countTerminal (runEmitsNoGuard (pollIterEmitsNoGuard "failed" 301000 300000 0))
      = 2 := by
  have hp : min (9/10 : ℚ) (1/10 + 301000 / 30000 * (8/10)) = 9/10 := by
    rw [min_def]
    norm_num
  have hlist : pollIterEmitsNoGuard "failed" 301000 300000 0
      = [("replicate_failed", true), ("timeout", true), ("progress", false)] := by
    rw [pollIterEmitsNoGuard]
    simp only [hp]
    rw [if_pos trivial,
      if_pos (by norm_num : (300000:ℚ) < 301000),
      if_pos (by norm_num : (1:ℚ)/20 ≤ 9/10 - 0)]
    rfl
  rw [hlist]
  exact ⟨rfl, rfl⟩

end Replicate
